import Mathlib

/-!
Verification of the label-to-tag normalization and content-transformation
pipeline of the keep-to-bear converter (src/keep-to-bear.js).

The repository concatenates three variant implementations of the converter.
The definitions below embed the functions the claims cite: the TypeScript
hashtag escaper `escapeInvalidHashtags` (lines 478-498), `htmlToMarkdown`
(lines 500-516), `generateHashtags` (lines 518-539), `generateDisplayTitle`
(lines 541-567), the final variant's `generateMarkdown` with its inline
label-to-YAML-tag normalizer (lines 920-988), and `generateFileName`
(lines 990-1009).

Strings are modelled as `List Char`; JavaScript regex replacement is
modelled by explicit left-to-right scanners.  Scanners that skip past a
matched span recurse on `dropWhile`, which is not structurally smaller, so
they take a fuel argument bounded by the list length; wrappers instantiate
the fuel with the length, and fuel-irrelevance lemmas recover the intended
recurrences.  JavaScript `Date` local-time accessors (`getHours`,
`getMinutes`) depend on the runtime timezone; that dependency is made
explicit as an integer UTC-offset-in-minutes parameter.
-/

/-! ### Character classes -/

/-- The character class of JavaScript `\s` (and of `String.prototype.trim`),
by code point: ASCII whitespace, NBSP, and the Unicode space separators,
line/paragraph separators and BOM. -/
def wsNat (n : Nat) : Bool :=
  n == 9 || n == 10 || n == 11 || n == 12 || n == 13 || n == 32 || n == 160 ||
  n == 5760 || (8192 ≤ n && n ≤ 8202) || n == 8232 || n == 8233 ||
  n == 8239 || n == 8287 || n == 12288 || n == 65279

/-- Whether a character matches JavaScript `\s`. -/
def isJsWs (c : Char) : Bool := wsNat c.toNat

/-- Whether a character matches JavaScript `\w`, i.e. `[A-Za-z0-9_]`. -/
def isWordChar (c : Char) : Bool :=
  (97 ≤ c.toNat && c.toNat ≤ 122) || (65 ≤ c.toNat && c.toNat ≤ 90) ||
  (48 ≤ c.toNat && c.toNat ≤ 57) || c = '_'

/-- Whether a character can extend a hashtag token: the class `[\w-]` of the
escaper's pattern `/#[\w-]+/g` (keep-to-bear.js line 480). -/
def isTagChar (c : Char) : Bool := isWordChar c || c = '-'

/-- Whether a character survives the escaper's label cleanup
`replace(/[^a-zA-Z0-9\s-]/g, "")` (line 487): ASCII alphanumerics,
whitespace and hyphen.  Note `_` does not survive, unlike `\w`. -/
def keepLabelChar (c : Char) : Bool :=
  (97 ≤ c.toNat && c.toNat ≤ 122) || (65 ≤ c.toNat && c.toNat ≤ 90) ||
  (48 ≤ c.toNat && c.toNat ≤ 57) || isJsWs c || c = '-'

/-- Whether a character survives the filename cleanup
`replace(/[^\w\s-]/g, "")` (line 997): word characters, whitespace, hyphen. -/
def keepFileChar (c : Char) : Bool := isWordChar c || isJsWs c || c = '-'

/-- ASCII model of JavaScript `toLowerCase()`: map `A`-`Z` to `a`-`z`,
leave everything else unchanged.  (All strings the converter lowercases are
label names and titles; the claims only exercise ASCII.) -/
def lcChar (c : Char) : Char :=
  if 65 ≤ c.toNat && c.toNat ≤ 90 then Char.ofNat (c.toNat + 32) else c

/-! ### Regex-replacement scanners shared by several source functions -/

/-- `replace(/\s+/g, "-")`: collapse each maximal whitespace run to a single
hyphen.  The Boolean state records whether the previous character was
whitespace (i.e. whether a run is already open). -/
def collapseWsAux : Bool → List Char → List Char
  | _, [] => []
  | inRun, c :: rest =>
    if isJsWs c then (if inRun then [] else ['-']) ++ collapseWsAux true rest
    else c :: collapseWsAux false rest

/-- `replace(/\s+/g, "-")` on a whole string. -/
def collapseWs (l : List Char) : List Char := collapseWsAux false l

/-- The hyphen-run collapse `replace` with pattern hyphen-plus, global, and
replacement `"-"` (keep-to-bear.js line 489): collapse each maximal hyphen
run to a single hyphen. -/
def collapseHyAux : Bool → List Char → List Char
  | _, [] => []
  | inRun, c :: rest =>
    if c = '-' then (if inRun then [] else ['-']) ++ collapseHyAux true rest
    else c :: collapseHyAux false rest

/-- The hyphen-run collapse on a whole string. -/
def collapseHyphens (l : List Char) : List Char := collapseHyAux false l

/-- JavaScript `String.prototype.trim`: drop whitespace from both ends. -/
def trimList (l : List Char) : List Char :=
  ((l.dropWhile isJsWs).reverse.dropWhile isJsWs).reverse

/-- `trim` on `String`. -/
def trimStr (s : String) : String := String.mk (trimList s.data)

/-! ### The label normalizer of the final `generateMarkdown`
(keep-to-bear.js lines 931-947) -/

/-- `replace(/\//g, " & ")`: every literal slash becomes space-ampersand-space
(line 937), so label-text slashes are never read as hierarchy. -/
def replaceSlashAmp : List Char → List Char
  | [] => []
  | c :: rest => (if c = '/' then [' ', '&', ' '] else [c]) ++ replaceSlashAmp rest

/-- `replace(/ - /g, "/")`: every (non-overlapping, left-to-right) occurrence
of space-hyphen-space becomes the path separator `/` (line 939). -/
def replaceDashSlash : List Char → List Char
  | c1 :: c2 :: c3 :: rest =>
    if c1 = ' ' && c2 = '-' && c3 = ' ' then '/' :: replaceDashSlash rest
    else c1 :: replaceDashSlash (c2 :: c3 :: rest)
  | l => l

/-- Steps 3-4 of the Label Normalizer: collapse whitespace runs to single
hyphens, then lowercase (the tail `replace(/\s+/g, "-").toLowerCase()` of
line 942, shared verbatim with lines 201, 531 and 998). -/
def labelSteps34 (l : List Char) : List Char := (collapseWs l).map lcChar

/-- The label-name-to-YAML-tag normalizer inlined in the final
`generateMarkdown` (lines 936-943), with the namespace root (`tagPrefix`,
`"06-google-keep/"` at line 928) abstracted as a parameter:
slash to `" & "`, then `" - "` to `/`, then whitespace runs to hyphens,
lowercase, and prepend the root. -/
def normalizeLabel (root name : String) : String :=
  root ++ String.mk (labelSteps34 (replaceDashSlash (replaceSlashAmp name.data)))

/-- The namespace root `tagPrefix` of the final `generateMarkdown`
(line 928). -/
def tagRoot : String := "06-google-keep/"

/-! ### The hashtag validator/escaper (keep-to-bear.js lines 478-498) -/

/-- The escaper's label-to-comparison-form transformation (lines 486-490):
remove characters outside `[a-zA-Z0-9\s-]`, collapse whitespace runs to
hyphens, collapse hyphen runs, lowercase. -/
def labelAsHashtag (label : List Char) : List Char :=
  (collapseHyphens (collapseWs (label.filter keepLabelChar))).map lcChar

/-- The escaper's membership test (lines 484-493): some label of the
valid-label set, converted by `labelAsHashtag`, equals the lowercased
hashtag candidate (the candidate is the matched token without its `#`). -/
def isValidLabel (valid : List (List Char)) (hashtag : List Char) : Bool :=
  valid.any (fun label => labelAsHashtag label == hashtag.map lcChar)

/-- Whether the head of a list is a hashtag-token character; a match of
`/#[\w-]+/` starts exactly at a `#` whose successor satisfies this. -/
def headIsTag : List Char → Bool
  | [] => false
  | c :: _ => isTagChar c

/-- One left-to-right pass of `content.replace(/#[\w-]+/g, match => ...)`
(lines 480-497): at a match, emit the token unchanged if its name is a valid
label and `\`-prefixed otherwise, then resume after the matched span; copy
every other character.  `fuel` bounds the number of steps (the wrapper
passes the list length, which always suffices). -/
def escGo (valid : List (List Char)) : Nat → List Char → List Char
  | _, [] => []
  | 0, l => l
  | fuel + 1, c :: rest =>
    if c = '#' && headIsTag rest then
      (if isValidLabel valid (rest.takeWhile isTagChar)
        then '#' :: rest.takeWhile isTagChar
        else '\\' :: '#' :: rest.takeWhile isTagChar)
        ++ escGo valid fuel (rest.dropWhile isTagChar)
    else c :: escGo valid fuel rest

/-- `escapeInvalidHashtags` on a character list. -/
def escapeInvalidList (valid : List (List Char)) (l : List Char) : List Char :=
  escGo valid l.length l

/-- `escapeInvalidHashtags(content)` (lines 478-498), with the process-wide
valid-label set passed explicitly (it is loaded once by `loadValidLabels`
and read-only thereafter; absent `Labels.txt` yields the empty set). -/
def escapeInvalidHashtags (validLabels : List String) (content : String) : String :=
  String.mk (escapeInvalidList (validLabels.map String.data) content.data)

/-- `htmlToMarkdown` (lines 500-516): the HTML-to-markdown conversion itself
is the external Turndown library, abstracted as the function parameter
`turndown`; the source trims its result and passes it through
`escapeInvalidHashtags` before returning. -/
def htmlToMarkdown (turndown : String → String) (validLabels : List String)
    (htmlContent : String) : String :=
  escapeInvalidHashtags validLabels (trimStr (turndown htmlContent))

/-! ### Note records (src/types.ts) -/

/-- A Keep label reference (types.ts). -/
structure KeepLabel where
  name : String

/-- A Keep attachment reference (types.ts); `mimetype` is unused by the
functions under study. -/
structure KeepAttachment where
  filePath : String

/-- A parsed note record (types.ts `KeepNote`).  `createdTimestampUsec` is a
numeric string in the source, consumed only through `parseInt`; it is
modelled as the parsed microsecond count.  The optional `labels` and
`attachments` arrays are modelled as lists, with the empty list standing for
an absent array (the source guards every use with a length check that
conflates the two). -/
structure KeepNote where
  title : Option String
  createdTimestampUsec : Option Nat
  labels : List KeepLabel
  attachments : List KeepAttachment

/-- JavaScript truthiness of `jsonData.title && jsonData.title.trim()`
(lines 905, 994): a title is present, non-empty, and non-blank. -/
def hasRealTitle (note : KeepNote) : Bool :=
  match note.title with
  | some t => t ≠ "" && trimStr t ≠ ""
  | none => false

/-! ### Dates (JavaScript `Date` over epoch milliseconds) -/

/-- Milliseconds from microseconds: `parseInt(createdTimestampUsec) / 1000`
truncated to an integer time value. -/
def msOfUsec (usec : Nat) : Nat := usec / 1000

/-- Proleptic Gregorian (year, month, day) of a day count since 1970-01-01
(the civil-from-days algorithm, valid for non-negative day counts). -/
def civilFromDays (days : Nat) : Nat × Nat × Nat :=
  let z := days + 719468
  let era := z / 146097
  let doe := z % 146097
  let yoe := (doe - doe / 1460 + doe / 36524 - doe / 146096) / 365
  let y := yoe + era * 400
  let doy := doe - (365 * yoe + yoe / 4 - yoe / 100)
  let mp := (5 * doy + 2) / 153
  let d := doy - (153 * mp + 2) / 5 + 1
  let m := if mp < 10 then mp + 3 else mp - 9
  (if m ≤ 2 then y + 1 else y, m, d)

/-- Zero-pad a number to two digits (`padStart(2, "0")`). -/
def pad2 (n : Nat) : String := if n < 10 then "0" ++ toString n else toString n

/-- Zero-pad a number to three digits (the milliseconds of `toISOString`). -/
def pad3 (n : Nat) : String :=
  if n < 10 then "00" ++ toString n
  else if n < 100 then "0" ++ toString n
  else toString n

/-- Zero-pad a number to four digits (the year of `toISOString`). -/
def pad4 (n : Nat) : String :=
  if n < 10 then "000" ++ toString n
  else if n < 100 then "00" ++ toString n
  else if n < 1000 then "0" ++ toString n
  else toString n

/-- `toISOString().split("T")[0]`: the UTC calendar date `YYYY-MM-DD` of an
epoch-millisecond count. -/
def isoDateOfMs (ms : Nat) : String :=
  let c := civilFromDays (ms / 86400000)
  pad4 c.1 ++ "-" ++ pad2 c.2.1 ++ "-" ++ pad2 c.2.2

/-- Full `toISOString()`: `YYYY-MM-DDTHH:MM:SS.sssZ` in UTC. -/
def toISOString (ms : Nat) : String :=
  let rem := ms % 86400000
  isoDateOfMs ms ++ "T" ++ pad2 (rem / 3600000) ++ ":" ++
    pad2 (rem % 3600000 / 60000) ++ ":" ++ pad2 (rem % 60000 / 1000) ++ "." ++
    pad3 (rem % 1000) ++ "Z"

/-- JavaScript `getHours()`: the hour of the LOCAL clock, i.e. of the time
value shifted by the runtime's UTC offset (in minutes). -/
def localHours (ms : Nat) (tzOffsetMin : Int) : Nat :=
  ((((ms : Int) + tzOffsetMin * 60000).fdiv 3600000).emod 24).toNat

/-- JavaScript `getMinutes()`: the minute of the LOCAL clock. -/
def localMinutes (ms : Nat) (tzOffsetMin : Int) : Nat :=
  ((((ms : Int) + tzOffsetMin * 60000).fdiv 60000).emod 60).toNat

/-! ### Display title, markdown assembly, filename
(keep-to-bear.js lines 541-567, 920-988, 990-1009) -/

/-- `generateDisplayTitle` (lines 541-567): the UTC calendar date of the
creation timestamp; joined to the trimmed title by `" - "` when a real title
exists; otherwise disambiguated by `.HH.MM` taken from the LOCAL clock
(`getHours`/`getMinutes`), with `tzOffsetMin` the runtime's UTC offset;
`"Unknown Date"` when there is no timestamp. -/
def generateDisplayTitle (note : KeepNote) (tzOffsetMin : Int) : String :=
  let dateText : String :=
    match note.createdTimestampUsec with
    | some usec => isoDateOfMs (msOfUsec usec)
    | none => "Unknown Date"
  if hasRealTitle note then
    dateText ++ " - " ++ trimStr ((note.title).getD "")
  else
    match note.createdTimestampUsec with
    | some usec =>
      dateText ++ "." ++ pad2 (localHours (msOfUsec usec) tzOffsetMin) ++ "." ++
        pad2 (localMinutes (msOfUsec usec) tzOffsetMin)
    | none => dateText

/-- `replace(/\//g, " and ")` of `generateHashtags` (line 527). -/
def replaceSlashAnd : List Char → List Char
  | [] => []
  | c :: rest =>
    (if c = '/' then [' ', 'a', 'n', 'd', ' '] else [c]) ++ replaceSlashAnd rest

/-- `replace(/ - /g, "-")` of `generateHashtags` (line 529). -/
def replaceDashHyphen : List Char → List Char
  | c1 :: c2 :: c3 :: rest =>
    if c1 = ' ' && c2 = '-' && c3 = ' ' then '-' :: replaceDashHyphen rest
    else c1 :: replaceDashHyphen (c2 :: c3 :: rest)
  | l => l

/-- `generateHashtags` (lines 518-539): the fixed `#06-google-keep` tag plus
one flat hashtag per non-blank label, obtained by slash to `" and "`,
`" - "` to `-`, whitespace runs to hyphens, lowercase. -/
def generateHashtags (note : KeepNote) : List String :=
  "#06-google-keep" ::
    (if note.labels.length > 0 then
      ((note.labels.map KeepLabel.name).filter
          (fun n => n ≠ "" && trimStr n ≠ "")).map
        (fun name =>
          "#" ++ String.mk (labelSteps34 (replaceDashHyphen (replaceSlashAnd name.data))))
    else [])

/-- The YAML tag list of the final `generateMarkdown` (lines 928-947): the
bare `06-google-keep` tag plus `normalizeLabel tagRoot` of each non-blank
label name. -/
def yamlTagsOf (note : KeepNote) : List String :=
  "06-google-keep" ::
    (if note.labels.length > 0 then
      ((note.labels.map KeepLabel.name).filter
          (fun n => n ≠ "" && trimStr n ≠ "")).map
        (fun name => normalizeLabel tagRoot name)
    else [])

/-- The attachment image test `/\.(jpg|jpeg|png|gif|bmp|svg|webp)$/i.test`
(line 970): the lowercased name ends in a dot plus a known image extension. -/
def isImageName (fileName : String) : Bool :=
  [".jpg", ".jpeg", ".png", ".gif", ".bmp", ".svg", ".webp"].any
    (fun ext => ext.data.isSuffixOf (fileName.data.map lcChar))

/-- The attachments section of `generateMarkdown` (lines 967-977): a header
plus an image embed or a link per copied file, each with a blank line. -/
def attachmentsSection (copiedAttachments : List String) : String :=
  if copiedAttachments.length > 0 then
    "## Attachments\n\n" ++
      String.join (copiedAttachments.map (fun fileName =>
        if isImageName fileName then "![](" ++ fileName ++ ")\n\n"
        else "[" ++ fileName ++ "](" ++ fileName ++ ")\n\n"))
  else ""

/-- The final variant's `generateMarkdown` (lines 920-988): YAML frontmatter
with the tag list, the display title as an H1, the trimmed content, the
attachments section, the `<!-- Created: ... -->` marker — every piece
appended with trailing newlines — and a final `trim()` of the whole
document. -/
def generateMarkdown (note : KeepNote) (content : String)
    (copiedAttachments : List String) (tzOffsetMin : Int) : String :=
  let yaml := "---\ntags:\n" ++
    String.join ((yamlTagsOf note).map (fun tag => "  - " ++ tag ++ "\n")) ++
    "---\n\n"
  let withTitle := yaml ++ "# " ++ generateDisplayTitle note tzOffsetMin ++ "\n\n"
  let withContent :=
    if content ≠ "" && trimStr content ≠ "" then
      withTitle ++ trimStr content ++ "\n\n"
    else withTitle
  let withAtts := withContent ++ attachmentsSection copiedAttachments
  let withCreated :=
    match note.createdTimestampUsec with
    | some usec => withAtts ++ "<!-- Created: " ++ toISOString (msOfUsec usec) ++ " -->\n"
    | none => withAtts
  trimStr withCreated

/-- `generateFileName` (lines 990-1009): from a real title, trim it, strip
characters outside `[\w\s-]`, collapse whitespace runs to hyphens,
lowercase; otherwise the UTC date plus `-note`, or `untitled-note`; then
truncate to 50 characters and append `.md`. -/
def generateFileName (note : KeepNote) : String :=
  let base :=
    if hasRealTitle note then
      String.mk ((collapseWs ((trimList ((note.title).getD "").data).filter
        keepFileChar)).map lcChar)
    else
      match note.createdTimestampUsec with
      | some usec => isoDateOfMs (msOfUsec usec) ++ "-note"
      | none => "untitled-note"
  String.mk (base.data.take 50) ++ ".md"

/-! ### Specification-side apparatus

The remaining definitions are not translations of source functions; they
formalize the spec's descriptions so that properties of the source
functions can be stated: the decomposition of the escaper's single
left-to-right pass into maximal unmatched stretches and matched tokens, a
checker that every hashtag token of a text is valid or escaped, and a
checker that a text has no whitespace at either end. -/

/-- A segment of the escaper's scan: a maximal stretch containing no match
of the hashtag pattern, or one matched token (`#` plus its name). -/
inductive HSeg where
  | gap (cs : List Char)
  | tok (cs : List Char)

/-- Prepend one unmatched character, merging into a leading gap so gaps
stay maximal. -/
def pushGap (c : Char) : List HSeg → List HSeg
  | HSeg.gap g :: s => HSeg.gap (c :: g) :: s
  | s => HSeg.gap [c] :: s

/-- The scan decomposition, fuelled like `escGo` and following the same
left-to-right, resume-after-the-match traversal. -/
def segsGo : Nat → List Char → List HSeg
  | _, [] => []
  | 0, l => [HSeg.gap l]
  | fuel + 1, c :: rest =>
    if c = '#' && headIsTag rest then
      HSeg.tok ('#' :: rest.takeWhile isTagChar) ::
        segsGo fuel (rest.dropWhile isTagChar)
    else pushGap c (segsGo fuel rest)

/-- The scan decomposition of a text. -/
def segsOf (l : List Char) : List HSeg := segsGo l.length l

/-- Reassemble a decomposition, transforming each matched token by `f` and
keeping every gap verbatim and in order. -/
def rebuild (f : List Char → List Char) : List HSeg → List Char
  | [] => []
  | HSeg.gap g :: s => g ++ rebuild f s
  | HSeg.tok t :: s => f t ++ rebuild f s

/-- The escaper's per-match replacement, on a whole matched token: keep a
valid token, backslash-prefix an invalid one. -/
def escTok (valid : List (List Char)) (t : List Char) : List Char :=
  if isValidLabel valid (t.drop 1) then t else '\\' :: t

/-- Whether a text contains any match of the hashtag pattern `/#[\w-]+/`. -/
def hasMatch : List Char → Bool
  | [] => false
  | c :: rest => (c = '#' && headIsTag rest) || hasMatch rest

/-- Scan a text checking that every hashtag match is either a valid label
or immediately preceded by a backslash; the Boolean argument records
whether the previous character was a backslash. -/
def tokensOkGo (valid : List (List Char)) : Nat → Bool → List Char → Bool
  | _, _, [] => true
  | 0, _, _ => true
  | fuel + 1, prevEsc, c :: rest =>
    if c = '#' && headIsTag rest then
      (prevEsc || isValidLabel valid (rest.takeWhile isTagChar)) &&
        tokensOkGo valid fuel false (rest.dropWhile isTagChar)
    else tokensOkGo valid fuel (c = '\\') rest

/-- Every hashtag token of the text is valid or escaped. -/
def tokensValidOrEscaped (valid : List (List Char)) (l : List Char) : Bool :=
  tokensOkGo valid l.length false l

/-- `tokensValidOrEscaped` over `String`, with raw label strings. -/
def tokensValidOrEscapedStr (validLabels : List String) (s : String) : Bool :=
  tokensValidOrEscaped (validLabels.map String.data) s.data

/-- The first character, if any, is not whitespace. -/
def headOk (l : List Char) : Bool :=
  match l with
  | [] => true
  | c :: _ => !isJsWs c

/-- Neither end of the text carries whitespace (in particular the text does
not end with a newline). -/
def noEdgeWs (l : List Char) : Bool := headOk l && headOk l.reverse

/-! ### Character-level facts -/

/-- A valid-scalar code point round-trips through `Char.ofNat`. -/
theorem toNat_ofNat_low (n : Nat) (h : n < 55296) : (Char.ofNat n).toNat = n := by
  unfold Char.ofNat
  rw [dif_pos (Or.inl h)]
  rfl

/-- Characters with equal code points are equal. -/
theorem charEq_of_toNat {c d : Char} (h : c.toNat = d.toNat) : c = d :=
  Char.ext (UInt32.ext h)

/-- `lcChar` fixes every character outside `A`-`Z`. -/
theorem lcChar_of_not_upper {c : Char} (h : ¬(65 ≤ c.toNat ∧ c.toNat ≤ 90)) :
    lcChar c = c := by
  unfold lcChar
  rw [if_neg]
  simpa using h

/-- `lcChar` sends an uppercase letter 32 code points up. -/
theorem lcChar_toNat_of_upper {c : Char} (h : 65 ≤ c.toNat ∧ c.toNat ≤ 90) :
    (lcChar c).toNat = c.toNat + 32 := by
  unfold lcChar
  rw [if_pos (by simpa using h)]
  exact toNat_ofNat_low _ (by omega)

/-- For a target character that is neither an uppercase nor a lowercase
ASCII letter, `lcChar c` hits it exactly when `c` is it already. -/
theorem lcChar_eq_iff {t : Char} (h1 : t.toNat < 65 ∨ 90 < t.toNat)
    (h2 : t.toNat < 97 ∨ 122 < t.toNat) (c : Char) : lcChar c = t ↔ c = t := by
  constructor
  · intro h
    by_cases hu : 65 ≤ c.toNat ∧ c.toNat ≤ 90
    · exfalso
      have := lcChar_toNat_of_upper hu
      rw [h] at this
      omega
    · rwa [lcChar_of_not_upper hu] at h
  · intro h
    subst h
    exact lcChar_of_not_upper (by omega)

/-- `wsNat` rejects the code points of ASCII letters. -/
theorem wsNat_false_of_letter {n : Nat}
    (h : (65 ≤ n ∧ n ≤ 90) ∨ (97 ≤ n ∧ n ≤ 122)) : wsNat n = false := by
  simp only [wsNat, Bool.or_eq_false_iff, beq_eq_false_iff_ne, ne_eq,
    Bool.and_eq_false_iff, decide_eq_false_iff_not, not_le]
  omega

/-- Lowercasing does not change whether a character is whitespace. -/
theorem isJsWs_lcChar (c : Char) : isJsWs (lcChar c) = isJsWs c := by
  by_cases hu : 65 ≤ c.toNat ∧ c.toNat ≤ 90
  · have h1 : isJsWs (lcChar c) = false := by
      unfold isJsWs
      rw [lcChar_toNat_of_upper hu]
      exact wsNat_false_of_letter (Or.inr (by omega))
    have h2 : isJsWs c = false := by
      unfold isJsWs
      exact wsNat_false_of_letter (Or.inl hu)
    rw [h1, h2]
  · rw [lcChar_of_not_upper hu]

/-! ### Lowercase-commutation of the normalizer stages -/

/-- Lowercasing fixes the space character. -/
theorem lc_space : lcChar ' ' = ' ' := by decide

/-- Lowercasing fixes the hyphen. -/
theorem lc_hyphen : lcChar '-' = '-' := by decide

/-- Lowercasing fixes the ampersand. -/
theorem lc_amp : lcChar '&' = '&' := by decide

/-- Lowercasing fixes the slash. -/
theorem lc_slash : lcChar '/' = '/' := by decide

/-- Slash substitution commutes with lowercasing. -/
theorem replaceSlashAmp_map_lc (l : List Char) :
    replaceSlashAmp (l.map lcChar) = (replaceSlashAmp l).map lcChar := by
  induction l with
  | nil => rfl
  | cons c rest ih =>
    by_cases h : c = '/'
    · subst h
      simp [replaceSlashAmp, lc_slash, lc_space, lc_amp, ih]
    · have h' : ¬ lcChar c = '/' :=
        fun hh => h ((lcChar_eq_iff (by decide) (by decide) c).mp hh)
      simp [replaceSlashAmp, h, h', ih]

/-- Unfolding equation of `replaceDashSlash` on three or more characters. -/
theorem rds_cons3 (c1 c2 c3 : Char) (rest : List Char) :
    replaceDashSlash (c1 :: c2 :: c3 :: rest) =
      if c1 = ' ' && c2 = '-' && c3 = ' ' then '/' :: replaceDashSlash rest
      else c1 :: replaceDashSlash (c2 :: c3 :: rest) := rfl

/-- Hierarchy-separator substitution commutes with lowercasing. -/
theorem replaceDashSlash_map_lc (l : List Char) :
    replaceDashSlash (l.map lcChar) = (replaceDashSlash l).map lcChar := by
  match l with
  | [] => rfl
  | [c] => rfl
  | [c, d] => rfl
  | c1 :: c2 :: c3 :: rest =>
    simp only [List.map_cons]
    rw [rds_cons3, rds_cons3]
    by_cases h : c1 = ' ' ∧ c2 = '-' ∧ c3 = ' '
    · obtain ⟨h1, h2, h3⟩ := h
      subst h1; subst h2; subst h3
      rw [if_pos (by decide), if_pos (by simp [lc_space, lc_hyphen])]
      rw [replaceDashSlash_map_lc rest]
      simp [lc_slash]
    · have hb : ¬ (c1 = ' ' && c2 = '-' && c3 = ' ') = true := by
        simp only [Bool.and_eq_true, decide_eq_true_eq, and_assoc]
        exact h
      have hb' : ¬ (lcChar c1 = ' ' && lcChar c2 = '-' && lcChar c3 = ' ') = true := by
        simp only [Bool.and_eq_true, decide_eq_true_eq, and_assoc]
        intro hh
        exact h ⟨(lcChar_eq_iff (by decide) (by decide) c1).mp hh.1,
          (lcChar_eq_iff (by decide) (by decide) c2).mp hh.2.1,
          (lcChar_eq_iff (by decide) (by decide) c3).mp hh.2.2⟩
      rw [if_neg hb', if_neg hb]
      have := replaceDashSlash_map_lc (c2 :: c3 :: rest)
      simp only [List.map_cons] at this
      rw [this]
      simp
termination_by l.length

/-- Whitespace collapsing commutes with lowercasing. -/
theorem collapseWsAux_map_lc (l : List Char) : ∀ inRun : Bool,
    collapseWsAux inRun (l.map lcChar) = (collapseWsAux inRun l).map lcChar := by
  induction l with
  | nil => intro inRun; rfl
  | cons c rest ih =>
    intro inRun
    by_cases h : isJsWs c = true
    · have h' : isJsWs (lcChar c) = true := by rw [isJsWs_lcChar]; exact h
      cases inRun <;> simp [collapseWsAux, h, h', ih, lc_hyphen]
    · have h' : ¬ isJsWs (lcChar c) = true := by rw [isJsWs_lcChar]; exact h
      simp [collapseWsAux, h, h', ih]

/-- Hyphen-run collapsing commutes with lowercasing. -/
theorem collapseHyAux_map_lc (l : List Char) : ∀ inRun : Bool,
    collapseHyAux inRun (l.map lcChar) = (collapseHyAux inRun l).map lcChar := by
  induction l with
  | nil => intro inRun; rfl
  | cons c rest ih =>
    intro inRun
    by_cases h : c = '-'
    · subst h
      cases inRun <;> simp [collapseHyAux, lc_hyphen, ih]
    · have h' : ¬ lcChar c = '-' :=
        fun hh => h ((lcChar_eq_iff (by decide) (by decide) c).mp hh)
      simp [collapseHyAux, h, h', ih]

/-! ### Fuel irrelevance and unfolding of the scanners -/

/-- One-step unfolding of the escaper at successor fuel. -/
theorem escGo_succ (valid : List (List Char)) (f : Nat) (c : Char)
    (rest : List Char) :
    escGo valid (f + 1) (c :: rest) =
      if c = '#' && headIsTag rest then
        (if isValidLabel valid (rest.takeWhile isTagChar)
          then '#' :: rest.takeWhile isTagChar
          else '\\' :: '#' :: rest.takeWhile isTagChar)
          ++ escGo valid f (rest.dropWhile isTagChar)
      else c :: escGo valid f rest := rfl

/-- Any fuel at least the list length gives the same escaper result. -/
theorem escGo_congr (valid : List (List Char)) :
    ∀ (f g : Nat) (l : List Char), l.length ≤ f → l.length ≤ g →
      escGo valid f l = escGo valid g l := by
  intro f
  induction f with
  | zero =>
    intro g l hf _
    have : l = [] := List.length_eq_zero.mp (Nat.le_zero.mp hf)
    subst this
    cases g <;> rfl
  | succ f ih =>
    intro g l hf hg
    match l, g with
    | [], g => cases g <;> rfl
    | c :: rest, g + 1 =>
      rw [escGo_succ, escGo_succ]
      by_cases hc : (c = '#' && headIsTag rest) = true
      · rw [if_pos hc, if_pos hc]
        have hd : (rest.dropWhile isTagChar).length ≤ rest.length :=
          (List.dropWhile_sublist _).length_le
        rw [ih g (rest.dropWhile isTagChar)
          (le_trans hd (Nat.le_of_succ_le_succ hf))
          (le_trans hd (Nat.le_of_succ_le_succ hg))]
      · rw [if_neg hc, if_neg hc]
        rw [ih g rest (Nat.le_of_succ_le_succ hf) (Nat.le_of_succ_le_succ hg)]

/-- The escaper's recurrence on a nonempty text. -/
theorem escapeInvalidList_cons (valid : List (List Char)) (c : Char)
    (rest : List Char) :
    escapeInvalidList valid (c :: rest) =
      if c = '#' && headIsTag rest then
        (if isValidLabel valid (rest.takeWhile isTagChar)
          then '#' :: rest.takeWhile isTagChar
          else '\\' :: '#' :: rest.takeWhile isTagChar)
          ++ escapeInvalidList valid (rest.dropWhile isTagChar)
      else c :: escapeInvalidList valid rest := by
  show escGo valid (rest.length + 1) (c :: rest) = _
  rw [escGo_succ]
  by_cases hc : (c = '#' && headIsTag rest) = true
  · rw [if_pos hc, if_pos hc]
    rw [escGo_congr valid rest.length (rest.dropWhile isTagChar).length
      (rest.dropWhile isTagChar) (List.dropWhile_sublist _).length_le le_rfl]
    rfl
  · rw [if_neg hc, if_neg hc]
    rfl

/-- One-step unfolding of the decomposition at successor fuel. -/
theorem segsGo_succ (f : Nat) (c : Char) (rest : List Char) :
    segsGo (f + 1) (c :: rest) =
      if c = '#' && headIsTag rest then
        HSeg.tok ('#' :: rest.takeWhile isTagChar) ::
          segsGo f (rest.dropWhile isTagChar)
      else pushGap c (segsGo f rest) := rfl

/-- Any fuel at least the list length gives the same decomposition. -/
theorem segsGo_congr :
    ∀ (f g : Nat) (l : List Char), l.length ≤ f → l.length ≤ g →
      segsGo f l = segsGo g l := by
  intro f
  induction f with
  | zero =>
    intro g l hf _
    have : l = [] := List.length_eq_zero.mp (Nat.le_zero.mp hf)
    subst this
    cases g <;> rfl
  | succ f ih =>
    intro g l hf hg
    match l, g with
    | [], g => cases g <;> rfl
    | c :: rest, g + 1 =>
      rw [segsGo_succ, segsGo_succ]
      by_cases hc : (c = '#' && headIsTag rest) = true
      · rw [if_pos hc, if_pos hc]
        have hd : (rest.dropWhile isTagChar).length ≤ rest.length :=
          (List.dropWhile_sublist _).length_le
        rw [ih g (rest.dropWhile isTagChar)
          (le_trans hd (Nat.le_of_succ_le_succ hf))
          (le_trans hd (Nat.le_of_succ_le_succ hg))]
      · rw [if_neg hc, if_neg hc]
        rw [ih g rest (Nat.le_of_succ_le_succ hf) (Nat.le_of_succ_le_succ hg)]

/-- The decomposition's recurrence on a nonempty text. -/
theorem segsOf_cons (c : Char) (rest : List Char) :
    segsOf (c :: rest) =
      if c = '#' && headIsTag rest then
        HSeg.tok ('#' :: rest.takeWhile isTagChar) ::
          segsOf (rest.dropWhile isTagChar)
      else pushGap c (segsOf rest) := by
  show segsGo (rest.length + 1) (c :: rest) = _
  rw [segsGo_succ]
  by_cases hc : (c = '#' && headIsTag rest) = true
  · rw [if_pos hc, if_pos hc]
    rw [segsGo_congr rest.length (rest.dropWhile isTagChar).length
      (rest.dropWhile isTagChar) (List.dropWhile_sublist _).length_le le_rfl]
    rfl
  · rw [if_neg hc, if_neg hc]
    rfl

/-- One-step unfolding of the token check at successor fuel. -/
theorem tokensOkGo_succ (valid : List (List Char)) (f : Nat) (prevEsc : Bool)
    (c : Char) (rest : List Char) :
    tokensOkGo valid (f + 1) prevEsc (c :: rest) =
      if c = '#' && headIsTag rest then
        (prevEsc || isValidLabel valid (rest.takeWhile isTagChar)) &&
          tokensOkGo valid f false (rest.dropWhile isTagChar)
      else tokensOkGo valid f (c = '\\') rest := rfl

/-- Any fuel at least the list length gives the same token check. -/
theorem tokensOkGo_congr (valid : List (List Char)) :
    ∀ (f g : Nat) (prevEsc : Bool) (l : List Char), l.length ≤ f →
      l.length ≤ g → tokensOkGo valid f prevEsc l = tokensOkGo valid g prevEsc l := by
  intro f
  induction f with
  | zero =>
    intro g prevEsc l hf _
    have : l = [] := List.length_eq_zero.mp (Nat.le_zero.mp hf)
    subst this
    cases g <;> rfl
  | succ f ih =>
    intro g prevEsc l hf hg
    match l, g with
    | [], g => cases g <;> rfl
    | c :: rest, g + 1 =>
      rw [tokensOkGo_succ, tokensOkGo_succ]
      by_cases hc : (c = '#' && headIsTag rest) = true
      · rw [if_pos hc, if_pos hc]
        have hd : (rest.dropWhile isTagChar).length ≤ rest.length :=
          (List.dropWhile_sublist _).length_le
        rw [ih g false (rest.dropWhile isTagChar)
          (le_trans hd (Nat.le_of_succ_le_succ hf))
          (le_trans hd (Nat.le_of_succ_le_succ hg))]
      · rw [if_neg hc, if_neg hc]
        rw [ih g (decide (c = '\\')) rest
          (Nat.le_of_succ_le_succ hf) (Nat.le_of_succ_le_succ hg)]

/-! ### The escaper rewrites matched tokens and nothing else -/

/-- Rebuilding after `pushGap` emits the pushed character first. -/
theorem rebuild_pushGap (f : List Char → List Char) (c : Char) (s : List HSeg) :
    rebuild f (pushGap c s) = c :: rebuild f s := by
  match s with
  | [] => rfl
  | HSeg.gap g :: s' => rfl
  | HSeg.tok t :: s' => rfl

/-- The escaper equals the decomposition rebuilt with its per-token
replacement. -/
theorem escape_eq_rebuild (valid : List (List Char)) (l : List Char) :
    escapeInvalidList valid l = rebuild (escTok valid) (segsOf l) := by
  match l with
  | [] => rfl
  | c :: rest =>
    rw [escapeInvalidList_cons, segsOf_cons]
    by_cases hc : (c = '#' && headIsTag rest) = true
    · rw [if_pos hc, if_pos hc]
      rw [escape_eq_rebuild valid (rest.dropWhile isTagChar)]
      show _ = escTok valid ('#' :: rest.takeWhile isTagChar) ++ _
      simp [escTok, List.drop_one]
    · rw [if_neg hc, if_neg hc, rebuild_pushGap]
      rw [escape_eq_rebuild valid rest]
termination_by l.length
decreasing_by
  · simp only [List.length_cons]
    exact Nat.lt_succ_of_le (List.dropWhile_sublist _).length_le
  · simp

/-- Rebuilding the decomposition with the identity restores the text: every
gap (and every token) appears verbatim and in order. -/
theorem rebuild_id_segsOf (l : List Char) :
    rebuild (fun t => t) (segsOf l) = l := by
  match l with
  | [] => rfl
  | c :: rest =>
    rw [segsOf_cons]
    by_cases hc : (c = '#' && headIsTag rest) = true
    · rw [if_pos hc]
      show ('#' :: rest.takeWhile isTagChar) ++ _ = _
      rw [rebuild_id_segsOf (rest.dropWhile isTagChar)]
      have hcc : c = '#' := by
        have := (Bool.and_eq_true _ _).mp hc
        exact of_decide_eq_true this.1
      rw [List.cons_append, List.takeWhile_append_dropWhile, hcc]
    · rw [if_neg hc, rebuild_pushGap, rebuild_id_segsOf rest]
termination_by l.length
decreasing_by
  · simp only [List.length_cons]
    exact Nat.lt_succ_of_le (List.dropWhile_sublist _).length_le
  · simp

/-- A text without any hashtag match passes through the escaper verbatim. -/
theorem escape_of_no_match (valid : List (List Char)) (l : List Char)
    (h : hasMatch l = false) : escapeInvalidList valid l = l := by
  induction l with
  | nil => rfl
  | cons c rest ih =>
    rw [escapeInvalidList_cons]
    simp only [hasMatch, Bool.or_eq_false_iff] at h
    rw [if_neg (by simp [h.1]), ih h.2]

/-- After dropping a maximal token-character run, the next character (if
any) is not a token character. -/
theorem headIsTag_dropWhile (l : List Char) :
    headIsTag (l.dropWhile isTagChar) = false := by
  induction l with
  | nil => rfl
  | cons c rest ih =>
    by_cases h : isTagChar c = true
    · rw [List.dropWhile_cons_of_pos h]
      exact ih
    · rw [List.dropWhile_cons_of_neg h]
      show isTagChar c = false
      simpa using h

/-- A list whose head is not a token character has an empty token-character
`takeWhile`. -/
theorem takeWhile_eq_nil_of_headIsTag {ys : List Char}
    (h : headIsTag ys = false) : ys.takeWhile isTagChar = [] := by
  cases ys with
  | nil => rfl
  | cons c rest =>
    rw [List.takeWhile_cons_of_neg]
    simpa [headIsTag] using h

/-- `takeWhile`/`dropWhile` split an append whose left part satisfies the
predicate throughout and whose right part starts by failing it. -/
theorem takeWhile_dropWhile_append {p : Char → Bool} {xs ys : List Char}
    (h1 : ∀ x ∈ xs, p x = true) (h2 : ys.takeWhile p = []) :
    (xs ++ ys).takeWhile p = xs ∧ (xs ++ ys).dropWhile p = ys := by
  induction xs with
  | nil =>
    refine ⟨by simpa using h2, ?_⟩
    have := List.takeWhile_append_dropWhile p ys
    rw [h2] at this
    simpa using this
  | cons x xs ih =>
    have hx : p x = true := h1 x (List.mem_cons_self x xs)
    have ih' := ih (fun a ha => h1 a (List.mem_cons_of_mem x ha))
    constructor
    · rw [List.cons_append, List.takeWhile_cons_of_pos hx, ih'.1]
    · rw [List.cons_append, List.dropWhile_cons_of_pos hx, ih'.2]

/-- The escaper does not create a token character at the front: if the
input does not start with one, neither does the output. -/
theorem headIsTag_escape {valid : List (List Char)} {l : List Char}
    (h : headIsTag l = false) :
    headIsTag (escapeInvalidList valid l) = false := by
  cases l with
  | nil => rfl
  | cons c rest =>
    rw [escapeInvalidList_cons]
    by_cases hc : (c = '#' && headIsTag rest) = true
    · rw [if_pos hc]
      by_cases hv : isValidLabel valid (rest.takeWhile isTagChar) = true
      · rw [if_pos hv]
        show isTagChar '#' = false
        decide
      · rw [if_neg hv]
        show isTagChar '\\' = false
        decide
    · rw [if_neg hc]
      simpa [headIsTag] using h

/-- Every element of a token-character `takeWhile` is a token character. -/
theorem mem_takeWhile_isTagChar {l : List Char} {x : Char}
    (h : x ∈ l.takeWhile isTagChar) : isTagChar x = true :=
  List.mem_takeWhile_imp h

/-- In the escaper's output, every hashtag match is a valid label or is
immediately preceded by a backslash, whatever preceded the output. -/
theorem tokensOk_escape (valid : List (List Char)) (l : List Char) :
    ∀ (f : Nat) (prevEsc : Bool), (escapeInvalidList valid l).length ≤ f →
      tokensOkGo valid f prevEsc (escapeInvalidList valid l) = true := by
  match l with
  | [] =>
    intro f prevEsc _
    cases f <;> rfl
  | c :: rest =>
    intro f prevEsc hf
    rw [escapeInvalidList_cons] at hf ⊢
    by_cases hc : (c = '#' && headIsTag rest) = true
    · rw [if_pos hc] at hf ⊢
      have htok : rest.takeWhile isTagChar ≠ [] := by
        have hhead : headIsTag rest = true := ((Bool.and_eq_true _ _).mp hc).2
        cases rest with
        | nil => exact absurd hhead (by simp [headIsTag])
        | cons r0 rs =>
          rw [List.takeWhile_cons_of_pos (by simpa [headIsTag] using hhead)]
          simp
      have hsplit := @takeWhile_dropWhile_append isTagChar
        (rest.takeWhile isTagChar)
        (escapeInvalidList valid (rest.dropWhile isTagChar))
        (fun x hx => mem_takeWhile_isTagChar hx)
        (takeWhile_eq_nil_of_headIsTag
          (headIsTag_escape (headIsTag_dropWhile rest)))
      have hheadtok : headIsTag (rest.takeWhile isTagChar ++
          escapeInvalidList valid (rest.dropWhile isTagChar)) = true := by
        cases htw : rest.takeWhile isTagChar with
        | nil => exact absurd htw htok
        | cons t0 ts =>
          show isTagChar t0 = true
          exact mem_takeWhile_isTagChar (htw ▸ List.mem_cons_self t0 ts)
      have hrec : ∀ g : Nat,
          (escapeInvalidList valid (rest.dropWhile isTagChar)).length ≤ g →
          tokensOkGo valid g false
            (escapeInvalidList valid (rest.dropWhile isTagChar)) = true :=
        fun g hg => tokensOk_escape valid (rest.dropWhile isTagChar) g false hg
      by_cases hv : isValidLabel valid (rest.takeWhile isTagChar) = true
      · rw [if_pos hv] at hf ⊢
        match f, hf with
        | f1 + 1, hf =>
          rw [List.cons_append, tokensOkGo_succ]
          rw [if_pos (by simp [hheadtok])]
          rw [hsplit.1, hsplit.2]
          rw [hv, Bool.or_true, Bool.true_and]
          refine hrec f1 ?_
          simp only [List.cons_append, List.length_cons, List.length_append,
            Nat.succ_le_succ_iff] at hf
          omega
      · rw [if_neg hv] at hf ⊢
        match f, hf with
        | f1 + 1, hf =>
          rw [List.cons_append, tokensOkGo_succ]
          rw [if_neg (by simp)]
          match f1, (by simpa [Nat.succ_le_succ_iff] using hf :
              ('#' :: (rest.takeWhile isTagChar ++
                escapeInvalidList valid (rest.dropWhile isTagChar))).length ≤ f1) with
          | f2 + 1, hf1 =>
            rw [List.cons_append, tokensOkGo_succ]
            rw [if_pos (by simp [hheadtok])]
            rw [hsplit.1, hsplit.2]
            rw [show decide ('\\' = '\\') = true from rfl, Bool.true_or,
              Bool.true_and]
            refine hrec f2 ?_
            simp only [List.length_cons, List.length_append,
              Nat.succ_le_succ_iff] at hf1
            omega
    · rw [if_neg hc] at hf ⊢
      match f, hf with
      | f1 + 1, hf =>
        rw [tokensOkGo_succ]
        have hcond : (c = '#' && headIsTag (escapeInvalidList valid rest)) = false := by
          by_cases hch : c = '#'
          · have hrest : headIsTag rest = false := by
              cases hb : headIsTag rest with
              | false => rfl
              | true => exact absurd (by simp [hch, hb]) hc
            simp [headIsTag_escape hrest]
          · simp [hch]
        rw [if_neg (by simp [hcond])]
        exact tokensOk_escape valid rest f1 (decide (c = '\\'))
          (by simpa [Nat.succ_le_succ_iff] using hf)
termination_by l.length
decreasing_by
  · simp only [List.length_cons]
    exact Nat.lt_succ_of_le (List.dropWhile_sublist _).length_le
  · simp

/-! ### Trimming leaves no whitespace at either end -/

/-- After dropping leading whitespace, the head (if any) is not whitespace. -/
theorem headOk_dropWhile (l : List Char) : headOk (l.dropWhile isJsWs) = true := by
  induction l with
  | nil => rfl
  | cons c rest ih =>
    by_cases h : isJsWs c = true
    · rw [List.dropWhile_cons_of_pos h]
      exact ih
    · rw [List.dropWhile_cons_of_neg h]
      show (!isJsWs c) = true
      simpa using h

/-- Prepending to a nonempty list does not change `headOk` of an append. -/
theorem headOk_append {a b : List Char} (h : a ≠ []) :
    headOk (a ++ b) = headOk a := by
  cases a with
  | nil => exact absurd rfl h
  | cons x xs => rfl

/-- Dropping trailing whitespace (via reverse) preserves a whitespace-free
head. -/
theorem headOk_dropWhile_rev (l : List Char) (h : headOk l.reverse = true) :
    headOk ((l.dropWhile isJsWs).reverse) = true := by
  induction l with
  | nil => exact h
  | cons c rest ih =>
    by_cases hc : isJsWs c = true
    · rw [List.dropWhile_cons_of_pos hc]
      apply ih
      rw [List.reverse_cons] at h
      cases hr : rest.reverse with
      | nil =>
        rw [hr] at h
        simp only [List.nil_append] at h
        exact absurd h (by simp [headOk, hc])
      | cons y ys =>
        rw [hr] at h
        exact h
    · rw [List.dropWhile_cons_of_neg hc]
      exact h

/-- A trimmed text has whitespace at neither end. -/
theorem noEdgeWs_trimList (l : List Char) : noEdgeWs (trimList l) = true := by
  unfold noEdgeWs trimList
  rw [Bool.and_eq_true]
  constructor
  · apply headOk_dropWhile_rev
    rw [List.reverse_reverse]
    exact headOk_dropWhile l
  · rw [List.reverse_reverse]
    exact headOk_dropWhile _

/-- Characters of a trimmed text come from the original text. -/
theorem mem_of_mem_trimList {c : Char} {l : List Char} (h : c ∈ trimList l) :
    c ∈ l := by
  unfold trimList at h
  rw [List.mem_reverse] at h
  have h1 := (List.dropWhile_sublist _).subset h
  rw [List.mem_reverse] at h1
  exact (List.dropWhile_sublist _).subset h1

/-- The escaper's label transformation factors through the Label
Normalizer's steps 3-4, preceded by the special-character strip and
followed by the hyphen-run collapse. -/
theorem labelAsHashtag_decomp (label : List Char) :
    labelAsHashtag label =
      collapseHyphens (labelSteps34 (label.filter keepLabelChar)) := by
  unfold labelAsHashtag labelSteps34 collapseHyphens
  rw [collapseHyAux_map_lc]

/-! ### The claims -/

/-- Claim C1, counterexample: on the label name `Reference - Linux/Tech`
the final variant's normalizer yields `06-google-keep/reference/linux-&-tech`
(the slash substitute is `" & "`), not `.../reference/linux-and-tech` as the
claim states; the other cited function, `generateHashtags`, uses `" and "`
but flattens the hierarchy separator to a hyphen, yielding the flat
`#reference-linux-and-tech`, so neither produces the claimed value. -/
theorem c1_normalize_example_counterexample :
    normalizeLabel tagRoot "Reference - Linux/Tech" =
        "06-google-keep/" ++ "reference/linux-&-tech" ∧
    normalizeLabel tagRoot "Reference - Linux/Tech" ≠
        "06-google-keep/" ++ "reference/linux-and-tech" ∧
    generateHashtags ⟨none, none, [⟨"Reference - Linux/Tech"⟩], []⟩ =
        ["#06-google-keep", "#reference-linux-and-tech"] :=
  ⟨by decide, by decide, by decide⟩

/-- Claim C1, amended: for every namespace root, normalizing
`Reference - Linux/Tech` produces the root followed by
`reference/linux-&-tech`: the literal slash is replaced by `" & "` (not
`" and "`) before the hierarchy separator `" - "` is turned into `/`,
whitespace runs collapse to single hyphens, and the result is lowercased. -/
theorem c1_normalize_example_amended (root : String) :
    normalizeLabel root "Reference - Linux/Tech" =
      root ++ "reference/linux-&-tech" :=
  congrArg (fun t => root ++ t) (by decide)

/-- Claim C2: hashtag escaping is NOT idempotent — the escaped text
`\#foo` still matches the pattern `/#[\w-]+/`, so a second application
escapes it again; evaluating the code at the failing input `#foo` with the
empty valid-tag set shows the double escape. -/
theorem c2_escape_not_idempotent_eval :
    escapeInvalidHashtags [] "#foo" = "\\#foo" ∧
    escapeInvalidHashtags [] (escapeInvalidHashtags [] "#foo") = "\\\\#foo" ∧
    escapeInvalidHashtags [] (escapeInvalidHashtags [] "#foo") ≠
      escapeInvalidHashtags [] "#foo" :=
  ⟨by decide, by decide, by decide⟩

/-- Claim C3, counterexample: the escaper's label-to-comparison-form
transformation is NOT the Label Normalizer's steps 3-4: on `Linux/Tech` the
escaper's form strips the slash entirely (`linuxtech`) while steps 3-4 keep
it (`linux/tech`), and the candidate `#linuxtech` is accordingly accepted
by the code although its lowercased form differs from the steps-3-4 image
of the label. -/
theorem c3_comparison_space_counterexample :
    labelAsHashtag ("Linux/Tech".data) ≠ labelSteps34 ("Linux/Tech".data) ∧
    labelAsHashtag ("Linux/Tech".data) = "linuxtech".data ∧
    labelSteps34 ("Linux/Tech".data) = "linux/tech".data ∧
    isValidLabel ["Linux/Tech".data] ("linuxtech".data) = true :=
  ⟨by decide, by decide, by decide, by decide⟩

/-- Claim C3, amended: the escaper's label-to-comparison-form equals the
Label Normalizer's steps 3-4 preceded by removing every character that is
not an ASCII alphanumeric, whitespace or hyphen, and followed by collapsing
hyphen runs; a hashtag candidate is accepted exactly when some raw label of
the set maps under this transformation to the candidate's lowercased form. -/
theorem c3_comparison_space_amended (valid : List (List Char))
    (hashtag label : List Char) :
    labelAsHashtag label =
        collapseHyphens (labelSteps34 (label.filter keepLabelChar)) ∧
    (isValidLabel valid hashtag = true ↔
      ∃ L ∈ valid, labelAsHashtag L = hashtag.map lcChar) := by
  refine ⟨labelAsHashtag_decomp label, ?_⟩
  simp [isValidLabel, List.any_eq_true, beq_iff_eq]

/-- Claim C4: with the empty valid-tag set the escaper fails closed — the
membership test accepts nothing, and `#anything` is escaped — while a set
containing `anything` (whose normalized form is the hashtag itself) lets
the same text pass through unchanged. -/
theorem c4_fail_closed :
    escapeInvalidHashtags [] "Check #anything here" =
        "Check \\#anything here" ∧
    escapeInvalidHashtags ["anything"] "Check #anything here" =
        "Check #anything here" ∧
    (∀ hashtag : List Char, isValidLabel [] hashtag = false) :=
  ⟨by decide, by decide, fun _ => rfl⟩

/-- Claim C5, counterexample: two label names identical except for leading
whitespace normalize differently — the normalizer never trims, so the
leading whitespace run of `" foo"` becomes a leading hyphen. -/
theorem c5_case_ws_invariance_counterexample :
    trimStr " foo" = trimStr "foo" ∧
    normalizeLabel tagRoot " foo" = tagRoot ++ "-foo" ∧
    normalizeLabel tagRoot "foo" = tagRoot ++ "foo" ∧
    normalizeLabel tagRoot " foo" ≠ normalizeLabel tagRoot "foo" :=
  ⟨by decide, by decide, by decide, by decide⟩

/-- Claim C5, amended: label names identical except for letter case
normalize to the same tag path (for any namespace root); the
leading/trailing-whitespace half of the claim fails on the code. -/
theorem c5_case_invariance (root L1 L2 : String)
    (h : L1.data.map lcChar = L2.data.map lcChar) :
    normalizeLabel root L1 = normalizeLabel root L2 := by
  unfold normalizeLabel labelSteps34 collapseWs
  rw [← collapseWsAux_map_lc, ← collapseWsAux_map_lc,
    ← replaceDashSlash_map_lc, ← replaceDashSlash_map_lc,
    ← replaceSlashAmp_map_lc, ← replaceSlashAmp_map_lc, h]

/-- Witness for C5 at a concrete pair of labels differing only in case. -/
theorem c5_case_invariance_witness :
    "Keep Notes".data.map lcChar = "keep NOTES".data.map lcChar ∧
    normalizeLabel tagRoot "Keep Notes" = normalizeLabel tagRoot "keep NOTES" :=
  ⟨by decide, c5_case_invariance tagRoot "Keep Notes" "keep NOTES" (by decide)⟩

/-- Claim C6: evaluating `generateDisplayTitle` at the claim's timestamp
(`2024-03-15T18:30:00Z`, i.e. 1710527400000000 microseconds).  The date
prefix is taken from `toISOString` (UTC) but the `.HH.MM` disambiguator
from `getHours`/`getMinutes` (LOCAL clock): with a UTC runtime the claimed
`2024-03-15.18.30` appears, but in a UTC+10:00 runtime (offset 600 minutes)
the same note renders as `2024-03-15.04.30`, contradicting the claim; the
titled form does not consult the clock fields and holds in every runtime. -/
theorem c6_display_title_eval :
    generateDisplayTitle ⟨none, some 1710527400000000, [], []⟩ 0 =
        "2024-03-15.18.30" ∧
    generateDisplayTitle ⟨none, some 1710527400000000, [], []⟩ 600 =
        "2024-03-15.04.30" ∧
    ∀ tzOffsetMin : Int,
      generateDisplayTitle ⟨some "Dinner Plans", some 1710527400000000, [], []⟩
          tzOffsetMin =
        "2024-03-15 - Dinner Plans" :=
  ⟨by decide, by decide, fun _ => rfl⟩

/-- Claim C7: the content renderer applies the hashtag escaper as its final
step — its result IS the escaper applied to the trimmed conversion output —
and consequently every hashtag token in the rendered text is either a valid
label or escaped, for every conversion function, valid-tag set and input. -/
theorem c7_renderer_escapes (turndown : String → String)
    (validLabels : List String) (htmlContent : String) :
    htmlToMarkdown turndown validLabels htmlContent =
        escapeInvalidHashtags validLabels (trimStr (turndown htmlContent)) ∧
    tokensValidOrEscapedStr validLabels
        (htmlToMarkdown turndown validLabels htmlContent) = true := by
  refine ⟨rfl, ?_⟩
  exact tokensOk_escape (validLabels.map String.data)
    (trimStr (turndown htmlContent)).data _ false le_rfl

/-- Claim C8: the escaper is a single left-to-right pass that rewrites only
matched hashtag tokens: it equals its scan decomposition rebuilt with the
per-token replacement, the decomposition rebuilt with the identity is the
input itself (so every maximal unmatched stretch appears unchanged and in
order in the output), and a text with no match at all is returned
verbatim. -/
theorem c8_frame (valid : List (List Char)) (l : List Char) :
    escapeInvalidList valid l = rebuild (escTok valid) (segsOf l) ∧
    rebuild (fun t => t) (segsOf l) = l ∧
    (hasMatch l = false → escapeInvalidList valid l = l) :=
  ⟨escape_eq_rebuild valid l, rebuild_id_segsOf l,
    escape_of_no_match valid l⟩

/-- Claim C9: a title that is non-blank but consists only of characters
outside `[\w\s-]` is stripped to nothing, so the derived filename is the
extension-only `.md` — the date-based and fixed fallbacks are not used
because the title branch was already taken. -/
theorem c9_filename_empty_base (t : String) (usec : Option Nat)
    (labels : List KeepLabel) (atts : List KeepAttachment)
    (h1 : trimStr t ≠ "")
    (h2 : ∀ c ∈ t.data, keepFileChar c = false) :
    generateFileName ⟨some t, usec, labels, atts⟩ = ".md" := by
  have ht : t ≠ "" := by
    intro he
    exact h1 (by rw [he]; rfl)
  have htitle : hasRealTitle ⟨some t, usec, labels, atts⟩ = true := by
    simp only [hasRealTitle, Bool.and_eq_true, decide_eq_true_eq]
    exact ⟨ht, h1⟩
  unfold generateFileName
  rw [if_pos htitle]
  have hfil : (trimList ((some t).getD "").data).filter keepFileChar = [] := by
    refine List.filter_eq_nil_iff.mpr (fun a ha => ?_)
    have : a ∈ t.data := mem_of_mem_trimList ha
    simp [h2 a this]
  rw [hfil]
  rfl

/-- Witness for C9 at the claim's example title `???` (with a timestamp
present, showing the date fallback is not consulted). -/
theorem c9_filename_empty_base_witness :
    trimStr "???" ≠ "" ∧ (∀ c ∈ "???".data, keepFileChar c = false) ∧
    generateFileName ⟨some "???", some 1710527400000000, [], []⟩ = ".md" :=
  ⟨by decide, by decide,
    c9_filename_empty_base "???" (some 1710527400000000) [] []
      (by decide) (by decide)⟩

/-- Claim C10: for every note record, rendered body, attachment list and
runtime timezone, the assembled document has no whitespace at either end —
in particular it does not end with a newline — because the assembly's
final step trims the accumulated text. -/
theorem c10_output_trimmed (note : KeepNote) (content : String)
    (copiedAttachments : List String) (tzOffsetMin : Int) :
    noEdgeWs (generateMarkdown note content copiedAttachments tzOffsetMin).data
      = true :=
  noEdgeWs_trimList _
